import Mathlib

/-!
Verification development for the we-study structured-generation pipeline.

The JavaScript source under scrutiny consists of several pipeline variants:
* `src/app/api/process-content/route.js`, first document ("route.js" below):
  regex chunker, `sanitizeAndParseJSON` repair cascade, `makeGenerateRequest`
  parse-retry wrapper, sequential batch loop with `Promise.all`, merge with
  `findIndex`-based dedup.
* `src/app/api/process-content/route.js`, second document ("OpenRouter
  variant"): regex chunker, combine step reading `allResponses[0]`.
* `src/unnamed/part_001`, second document ("part_001 variant"):
  slice-based chunker, `retryWithBackoff`, combine step with hashtag
  dedup/truncation.

Strings are modelled as Lean `String`/`List Char`; JavaScript values parsed
from JSON are modelled by the `JValue` type below.  Numbers are restricted to
integers (every number appearing in the repository's target schema is an
integer); JSON.parse is modelled by a fuel-indexed recursive-descent parser
faithful to the JSON grammar over that restriction.
-/

/-! ## JavaScript string primitives -/

/-- The characters treated as whitespace by JavaScript's `\s`, `String.prototype.trim`
and the JSON grammar's insignificant whitespace (core set: space, tab, LF, VT, FF,
CR, NBSP, BOM). -/
def isJsWhitespace (c : Char) : Bool :=
  c == ' ' || c == '\t' || c == '\n' || c.toNat == 0x0b || c.toNat == 0x0c ||
  c == '\r' || c.toNat == 0xa0 || c.toNat == 0x2028 || c.toNat == 0x2029 ||
  c.toNat == 0xfeff

/-- JavaScript line terminators: the characters NOT matched by `.` in a regular
expression without the `s` flag (LF, CR, LS U+2028, PS U+2029). -/
def isLineTerminator (c : Char) : Bool :=
  c == '\n' || c == '\r' || c.toNat == 0x2028 || c.toNat == 0x2029

/-- `String.prototype.trim`: strip leading and trailing JS whitespace. -/
def jsTrim (s : String) : String :=
  ⟨((s.data.dropWhile isJsWhitespace).reverse.dropWhile isJsWhitespace).reverse⟩

/-- `String.prototype.includes(pat)`: substring containment test. -/
def containsSubstr (s pat : List Char) : Bool :=
  (List.range (s.length + 1)).any fun i => pat.isPrefixOf (s.drop i)

/-! ## JavaScript values produced by `JSON.parse` -/

/-- A JavaScript value as produced by `JSON.parse` (numbers restricted to
integers, see the header comment). -/
inductive JValue where
  | null
  | bool (b : Bool)
  | num (n : Int)
  | str (s : String)
  | arr (xs : List JValue)
  | obj (fields : List (String × JValue))
  deriving Repr

/-- Property lookup `v.k` on a parsed value: defined on objects, `undefined`
(modelled as `none`) otherwise.  The parser collapses duplicate keys, so
first-match lookup agrees with JavaScript object semantics. -/
def getField : JValue → String → Option JValue
  | .obj fields, k => (fields.find? (fun p => p.1 == k)).map (·.2)
  | _, _ => none

/-- JavaScript truthiness of a parsed value (`undefined` is handled by the
`Option` layer at use sites). -/
def truthy : JValue → Bool
  | .null => false
  | .bool b => b
  | .num n => n != 0
  | .str s => s != ""
  | .arr _ => true
  | .obj _ => true

/-- `x || default` on an optional JS value: the value if present and truthy,
otherwise the default. -/
def jsOr (v : Option JValue) (dflt : JValue) : JValue :=
  match v with
  | some x => if truthy x then x else dflt
  | none => dflt

/-- `typeof x === 'string'` for an optional (possibly `undefined`) value. -/
def isStrField : Option JValue → Bool
  | some (.str _) => true
  | _ => false

/-- `Array.isArray(x)` for an optional (possibly `undefined`) value. -/
def isArrField : Option JValue → Bool
  | some (.arr _) => true
  | _ => false

mutual
/-- JavaScript `String(x)` coercion of a parsed value.  Arrays stringify by
`join(',')`, with `null` elements contributing the empty string. -/
def jsToString : JValue → String
  | .null => "null"
  | .bool true => "true"
  | .bool false => "false"
  | .num n => toString n
  | .str s => s
  | .arr xs => String.intercalate "," (jsToStringList xs)
  | .obj _ => "[object Object]"

/-- Elementwise stringification used by `Array.prototype.join`: `null`
elements become the empty string. -/
def jsToStringList : List JValue → List String
  | [] => []
  | .null :: vs => "" :: jsToStringList vs
  | v :: vs => jsToString v :: jsToStringList vs
end

/-- The string under a `some (.str s)`, with `""` as the (unreachable at use
sites, which guard with `isStrField`) default. -/
def getStrD (v : Option JValue) : String :=
  match v with
  | some (.str s) => s
  | _ => ""

/-- The element list under a `some (.arr xs)`, with `[]` as the (unreachable at
use sites, which guard with `isArrField`) default. -/
def getArrD (v : Option JValue) : List JValue :=
  match v with
  | some (.arr xs) => xs
  | _ => []

/-! ## A model of `JSON.parse`

Recursive-descent parser for the JSON grammar (numbers restricted to
integers).  The fuel argument is a step bound; `jsonParse` supplies
`length + 1`, which dominates the nesting depth, so the fuel never runs out
on the wrapper's calls. -/

/-- Insignificant whitespace of the JSON grammar (space, tab, LF, CR). -/
def isJsonWs (c : Char) : Bool :=
  c == ' ' || c == '\t' || c == '\n' || c == '\r'

/-- Value of a hex digit, if any (code points 48-57, 97-102, 65-70). -/
def hexDigitVal (c : Char) : Option Nat :=
  let n := c.toNat
  if 48 ≤ n && n ≤ 57 then some (n - 48)
  else if 97 ≤ n && n ≤ 102 then some (n - 87)
  else if 65 ≤ n && n ≤ 70 then some (n - 55)
  else none

/-- Unescaped value of a single-character JSON string escape, if valid
(the code points of the escape letters, backspace 8 and form feed 12). -/
def escChar (c : Char) : Option Char :=
  let n := c.toNat
  if n == 34 || n == 92 || n == 47 then some c
  else if n == 98 then some (Char.ofNat 8)
  else if n == 102 then some (Char.ofNat 12)
  else if n == 110 then some '\n'
  else if n == 114 then some '\r'
  else if n == 116 then some '\t'
  else none

/-- Parse the body of a JSON string literal (the opening quote already
consumed), returning the decoded characters and the remaining input.  Raw
control characters below U+0020 are rejected, as in JSON. -/
def parseStrChars : List Char → Option (List Char × List Char)
  | [] => none
  | '"' :: rest => some ([], rest)
  | '\\' :: esc =>
    match esc with
    | [] => none
    | 'u' :: h1 :: h2 :: h3 :: h4 :: rest2 => do
      let d1 ← hexDigitVal h1
      let d2 ← hexDigitVal h2
      let d3 ← hexDigitVal h3
      let d4 ← hexDigitVal h4
      let (cs, rem) ← parseStrChars rest2
      some (Char.ofNat (((d1 * 16 + d2) * 16 + d3) * 16 + d4) :: cs, rem)
    | 'u' :: _ => none
    | e :: rest => do
      let c ← escChar e
      let (cs, rem) ← parseStrChars rest
      some (c :: cs, rem)
  | c :: rest =>
    if c.toNat < 0x20 then none
    else do
      let (cs, rem) ← parseStrChars rest
      some (c :: cs, rem)

/-- Numeric value of a digit run. -/
def digitsVal (ds : List Char) : Nat :=
  ds.foldl (fun acc c => 10 * acc + (c.toNat - 48)) 0

/-- Parse a JSON number at the head of the input.  Integer grammar
(`-? (0 | [1-9][0-9]*)`); a following `.`, `e` or `E` makes the parse fail
(the model excludes non-integer numbers). -/
def parseIntNumber (s : List Char) : Option (Int × List Char) :=
  let (neg, s1) := match s with
    | '-' :: t => (true, t)
    | t => (false, t)
  match s1 with
  | c :: _ =>
    if c.isDigit then
      let ds := s1.takeWhile Char.isDigit
      let rest := s1.dropWhile Char.isDigit
      -- leading-zero rule: "0" alone, or a run not starting with '0'
      if ds.length > 1 && c == '0' then none
      else match rest with
        | r :: _ => if r == '.' || r == 'e' || r == 'E' then none
                    else some (if neg then -(digitsVal ds : Int) else (digitsVal ds : Int), rest)
        | [] => some (if neg then -(digitsVal ds : Int) else (digitsVal ds : Int), rest)
    else none
  | [] => none

/-- `fields[k] = v` on a JavaScript object under construction: overwrite the
existing binding in place, else append (JS assignment semantics, so duplicate
JSON keys collapse with the last value winning). -/
def insertField (fields : List (String × JValue)) (k : String) (v : JValue) :
    List (String × JValue) :=
  if fields.any (fun p => p.1 == k) then
    fields.map (fun p => if p.1 == k then (k, v) else p)
  else fields ++ [(k, v)]

mutual
/-- Parse one JSON value (leading whitespace allowed). -/
def parseValue : Nat → List Char → Option (JValue × List Char)
  | 0, _ => none
  | f + 1, s =>
    match s.dropWhile isJsonWs with
    | '{' :: rest => parseMembers f (rest.dropWhile isJsonWs)
    | '[' :: rest => parseElems f (rest.dropWhile isJsonWs)
    | '"' :: rest => (parseStrChars rest).map (fun (cs, rem) => (.str ⟨cs⟩, rem))
    | 't' :: 'r' :: 'u' :: 'e' :: rest => some (.bool true, rest)
    | 'f' :: 'a' :: 'l' :: 's' :: 'e' :: rest => some (.bool false, rest)
    | 'n' :: 'u' :: 'l' :: 'l' :: rest => some (.null, rest)
    | s1 => (parseIntNumber s1).map (fun (n, rem) => (.num n, rem))

/-- Parse array elements after `[` (leading whitespace already stripped). -/
def parseElems : Nat → List Char → Option (JValue × List Char)
  | 0, _ => none
  | f + 1, s =>
    match s with
    | ']' :: rest => some (.arr [], rest)
    | _ => do
      let (v, rem) ← parseValue f s
      match parseElemsLoop f (rem.dropWhile isJsonWs) with
      | some (vs, rem2) => some (.arr (v :: vs), rem2)
      | none => none

/-- Parse the continuation of an array after one element: either `]`, or a
comma followed by further elements. -/
def parseElemsLoop : Nat → List Char → Option (List JValue × List Char)
  | 0, _ => none
  | f + 1, s =>
    match s with
    | ']' :: rest => some ([], rest)
    | ',' :: rest => do
      let (v, rem) ← parseValue f (rest.dropWhile isJsonWs)
      let (vs, rem2) ← parseElemsLoop f (rem.dropWhile isJsonWs)
      some (v :: vs, rem2)
    | _ => none

/-- Parse object members after `{` (leading whitespace already stripped),
assigning keys left to right with `insertField`. -/
def parseMembers : Nat → List Char → Option (JValue × List Char)
  | 0, _ => none
  | f + 1, s =>
    match s with
    | '}' :: rest => some (.obj [], rest)
    | _ => parseMembersLoop f s []

/-- Parse one `"key" : value` member and the continuation after it. -/
def parseMembersLoop : Nat → List Char → List (String × JValue) →
    Option (JValue × List Char)
  | 0, _, _ => none
  | f + 1, s, acc =>
    match s with
    | '"' :: rest => do
      let (cs, rem) ← parseStrChars rest
      match rem.dropWhile isJsonWs with
      | ':' :: rest2 => do
        let (v, rem2) ← parseValue f rest2
        let acc2 := insertField acc ⟨cs⟩ v
        match rem2.dropWhile isJsonWs with
        | ',' :: rest3 => parseMembersLoop f (rest3.dropWhile isJsonWs) acc2
        | '}' :: rest3 => some (.obj acc2, rest3)
        | _ => none
      | _ => none
    | _ => none
end

/-- The model of `JSON.parse`: parse one JSON text; trailing non-whitespace
input is a parse error. -/
def jsonParse (s : List Char) : Option JValue :=
  match parseValue (s.length + 1) s with
  | some (v, rest) => if (rest.dropWhile isJsonWs).isEmpty then some v else none
  | none => none


/-! ## The repair cascade of `sanitizeAndParseJSON` (route.js lines 44-137)

Each regex `replace` of the source is modelled by a left-to-right scanner
that mirrors the regex's matching at every position, emitting the
replacement and resuming after the matched span.  None of the regexes can
backtrack productively (each quantified class is disjoint from the class
that follows it), so greedy scanning is exact.  The fuel argument is a step
bound; each step consumes at least one input character, so the wrappers'
`length` fuel never runs out. -/

/-- JavaScript word characters (`\w`, and the classes `[a-zA-Z0-9_]`). -/
def isWordChar (c : Char) : Bool :=
  c.isAlphanum || c == '_'

/-- Case-insensitive prefix test (pattern given in lower case). -/
def ciPrefixOf : List Char → List Char → Bool
  | [], _ => true
  | _ :: _, [] => false
  | p :: ps, c :: cs => p == c.toLower && ciPrefixOf ps cs

/-- Index of the first case-insensitive occurrence of `pat` in `s`, if any. -/
def findCISub (pat s : List Char) : Option Nat :=
  (List.range (s.length + 1)).find? (fun i => ciPrefixOf pat (s.drop i))

/-- `.replace(/<script\b[^<]*(?:(?!<\/script>)<[^<]*)*<\/script>/gi, '')`:
remove every span from a case-insensitive `<script` (at a word boundary)
through the nearest following case-insensitive `</script>`; a `<script`
with no later closing tag matches nothing. -/
def removeScriptTagsGo : Nat → List Char → List Char
  | 0, s => s
  | fuel + 1, s =>
    match s with
    | [] => []
    | c :: rest =>
      if ciPrefixOf "<script".data s &&
         (match s.drop 7 with
          | [] => true
          | d :: _ => !isWordChar d) then
        match findCISub "</script>".data (s.drop 7) with
        | some i => removeScriptTagsGo fuel ((s.drop 7).drop (i + 9))
        | none => c :: removeScriptTagsGo fuel rest
      else c :: removeScriptTagsGo fuel rest

/-- Wrapper supplying the fuel for `removeScriptTagsGo`. -/
def removeScriptTags (s : List Char) : List Char :=
  removeScriptTagsGo s.length s

/-- `.replace(/(["\]}])[\n\r]+(["\[{])/g, '$1,$2')`: a closing quote/bracket,
a nonempty run of LF/CR, and an opening quote/bracket get a comma inserted in
place of the newline run. -/
def insertMissingCommasGo : Nat → List Char → List Char
  | 0, s => s
  | _ + 1, [] => []
  | fuel + 1, c :: rest =>
    if c == '"' || c == ']' || c == '}' then
      let nl := rest.takeWhile (fun x => x == '\n' || x == '\r')
      match nl, rest.drop nl.length with
      | _ :: _, c2 :: rest2 =>
        if c2 == '"' || c2 == '[' || c2 == '{' then
          c :: ',' :: c2 :: insertMissingCommasGo fuel rest2
        else c :: insertMissingCommasGo fuel rest
      | _, _ => c :: insertMissingCommasGo fuel rest
    else c :: insertMissingCommasGo fuel rest

/-- Wrapper supplying the fuel for `insertMissingCommasGo`. -/
def insertMissingCommas (s : List Char) : List Char :=
  insertMissingCommasGo s.length s

/-- `.replace(/,(\s*[}\]])/g, '$1')`: drop a comma standing before (possibly
whitespace-separated) `}` or `]`. -/
def stripTrailingCommasGo : Nat → List Char → List Char
  | 0, s => s
  | _ + 1, [] => []
  | fuel + 1, c :: rest =>
    if c == ',' then
      let ws := rest.takeWhile isJsWhitespace
      match rest.drop ws.length with
      | b :: rest2 =>
        if b == '}' || b == ']' then
          ws ++ b :: stripTrailingCommasGo fuel rest2
        else c :: stripTrailingCommasGo fuel rest
      | [] => c :: stripTrailingCommasGo fuel rest
    else c :: stripTrailingCommasGo fuel rest

/-- Wrapper supplying the fuel for `stripTrailingCommasGo`. -/
def stripTrailingCommas (s : List Char) : List Char :=
  stripTrailingCommasGo s.length s

/-- `indexOf('{')` slicing: discard everything before the first `{`
(unchanged when there is none). -/
def sliceFromFirstBrace (s : List Char) : List Char :=
  match s.findIdx? (· == '{') with
  | some i => s.drop i
  | none => s

/-- `lastIndexOf('}')` slicing: keep everything up to and including the last
`}` (unchanged when there is none). -/
def sliceToLastBrace (s : List Char) : List Char :=
  match s.reverse.findIdx? (· == '}') with
  | some j => s.take (s.length - j)
  | none => s

/-- `.replace(/([{,]\s*)([a-zA-Z_][a-zA-Z0-9_]*)(\s*:)/g, '$1"$2"$3')`: quote
a bare identifier-like property name after `{` or `,`. -/
def quoteKeysAlphaGo : Nat → List Char → List Char
  | 0, s => s
  | _ + 1, [] => []
  | fuel + 1, c :: rest =>
    if c == '{' || c == ',' then
      let ws1 := rest.takeWhile isJsWhitespace
      match rest.drop ws1.length with
      | h :: _ =>
        if h.isAlpha || h == '_' then
          let afterWs := rest.drop ws1.length
          let ident := afterWs.takeWhile (fun x => x.isAlphanum || x == '_')
          let afterIdent := afterWs.drop ident.length
          let ws2 := afterIdent.takeWhile isJsWhitespace
          match afterIdent.drop ws2.length with
          | ':' :: rest2 =>
            c :: (ws1 ++ '"' :: (ident ++ '"' :: (ws2 ++ ':' :: quoteKeysAlphaGo fuel rest2)))
          | _ => c :: quoteKeysAlphaGo fuel rest
        else c :: quoteKeysAlphaGo fuel rest
      | [] => c :: quoteKeysAlphaGo fuel rest
    else c :: quoteKeysAlphaGo fuel rest

/-- Wrapper supplying the fuel for `quoteKeysAlphaGo`. -/
def quoteKeysAlpha (s : List Char) : List Char :=
  quoteKeysAlphaGo s.length s

/-- `.replace(/([{,]\s*)([^"\s][^:\s]*)(\s*:)/g, '$1"$2"$3')`: quote any
non-quote property-name-like run before a colon, after `{` or `,`. -/
def quoteKeysLooseGo : Nat → List Char → List Char
  | 0, s => s
  | _ + 1, [] => []
  | fuel + 1, c :: rest =>
    if c == '{' || c == ',' then
      let ws1 := rest.takeWhile isJsWhitespace
      match rest.drop ws1.length with
      | h :: afterFirst =>
        if h != '"' && !isJsWhitespace h then
          let run := afterFirst.takeWhile (fun x => x != ':' && !isJsWhitespace x)
          let afterRun := afterFirst.drop run.length
          let ws2 := afterRun.takeWhile isJsWhitespace
          match afterRun.drop ws2.length with
          | ':' :: rest2 =>
            c :: (ws1 ++ '"' :: h :: (run ++ '"' :: (ws2 ++ ':' :: quoteKeysLooseGo fuel rest2)))
          | _ => c :: quoteKeysLooseGo fuel rest
        else c :: quoteKeysLooseGo fuel rest
      | [] => c :: quoteKeysLooseGo fuel rest
    else c :: quoteKeysLooseGo fuel rest

/-- Wrapper supplying the fuel for `quoteKeysLooseGo`. -/
def quoteKeysLoose (s : List Char) : List Char :=
  quoteKeysLooseGo s.length s

/-! ## Schema validation and entry filtering (route.js lines 74-131) -/

/-- Truthiness of a possibly-`undefined` property. -/
def truthyField : Option JValue → Bool
  | some v => truthy v
  | none => false

/-- The structure check of route.js lines 78-82 and 121-125: `summary`,
`flashcards` and `quiz` must each be present, truthy, and arrays. -/
def validStructure (parsed : JValue) : Bool :=
  truthyField (getField parsed "summary") && isArrField (getField parsed "summary") &&
  truthyField (getField parsed "flashcards") && isArrField (getField parsed "flashcards") &&
  truthyField (getField parsed "quiz") && isArrField (getField parsed "quiz")

/-- The flashcard filter (route.js line 90): entry truthy with string
`question` and string `answer`. -/
def flashcardOk (card : JValue) : Bool :=
  truthy card && isStrField (getField card "question") &&
  isStrField (getField card "answer")

/-- The flashcard map (route.js lines 91-94): keep `question`/`answer`,
trimmed. -/
def mkFlashcard (card : JValue) : JValue :=
  .obj [("question", .str (jsTrim (getStrD (getField card "question")))),
        ("answer", .str (jsTrim (getStrD (getField card "answer"))))]

/-- The quiz filter (route.js line 97): entry truthy with string `question`,
array `options` and string `correctAnswer`.  No check relates `correctAnswer`
to `options`, and the length of `options` is not inspected. -/
def quizOk (q : JValue) : Bool :=
  truthy q && isStrField (getField q "question") &&
  isArrField (getField q "options") && isStrField (getField q "correctAnswer")

/-- The quiz map (route.js lines 98-103): trim `question`, stringify-and-trim
each option, trim `correctAnswer`, default `difficulty` to `"medium"`. -/
def mkQuiz (q : JValue) : JValue :=
  .obj [("question", .str (jsTrim (getStrD (getField q "question")))),
        ("options", .arr ((getArrD (getField q "options")).map
          (fun opt => JValue.str (jsTrim (jsToString opt))))),
        ("correctAnswer", .str (jsTrim (getStrD (getField q "correctAnswer")))),
        ("difficulty", jsOr (getField q "difficulty") (.str "medium"))]

/-- Property assignment `v[k] = x` (no-op on non-objects, unreachable at use
sites). -/
def setField (v : JValue) (k : String) (x : JValue) : JValue :=
  match v with
  | .obj fields => .obj (insertField fields k x)
  | other => other

/-- Route.js lines 78-105: validate the top-level structure, then rewrite
`summary` (stringify, trim, drop falsy), `flashcards` and `quiz` (filter and
rebuild entries) in place, preserving all other fields of the parsed
object. -/
def sanitizeParsed (parsed : JValue) : Option JValue :=
  if validStructure parsed then
    let p1 := setField parsed "summary"
      (.arr (((getArrD (getField parsed "summary")).map
        (fun item => JValue.str (jsTrim (jsToString item)))).filter truthy))
    let p2 := setField p1 "flashcards"
      (.arr (((getArrD (getField parsed "flashcards")).filter flashcardOk).map mkFlashcard))
    let p3 := setField p2 "quiz"
      (.arr (((getArrD (getField parsed "quiz")).filter quizOk).map mkQuiz))
    some p3
  else none

/-- The cleaning applied before the second parse attempt (route.js lines
53-71): script-tag removal, comma insertion, trailing-comma removal, and
slicing to the outermost brace span. -/
def cleanTextStage2 (text : List Char) : List Char :=
  sliceToLastBrace (sliceFromFirstBrace
    (stripTrailingCommas (insertMissingCommas (removeScriptTags text))))

/-- The more aggressive cleaning before the third parse attempt (route.js
lines 112-116), applied to the stage-2 cleaned text. -/
def cleanTextStage3 (c : List Char) : List Char :=
  quoteKeysLoose (quoteKeysAlpha c)

/-- `sanitizeAndParseJSON` (route.js lines 44-137).  Stage 1: direct parse,
returned **without any validation**.  Stage 2: parse the cleaned text, then
validate the top-level structure and filter/rebuild entries.  Stage 3 (on any
stage-2 failure, including validation failure): parse the aggressively
cleaned text and validate the top-level structure only, returning the parsed
value **without entry filtering**.  All failures collapse to `none` (the JS
function throws; the caller catches every throw identically). -/
def sanitizeAndParseJSON (text : String) : Option JValue :=
  match jsonParse text.data with
  | some v => some v
  | none =>
    let clean := cleanTextStage2 text.data
    let stage2 :=
      match jsonParse clean with
      | some parsed => sanitizeParsed parsed
      | none => none
    match stage2 with
    | some v => some v
    | none =>
      match jsonParse (cleanTextStage3 clean) with
      | some finalParsed =>
        if validStructure finalParsed then some finalParsed else none
      | none => none

/-! ## Errors, the generation client, chunking, merging, retry, orchestration -/

/-- A JavaScript error as observed by this code: a message, and the
provider-attached `status` when present (`error.status === 429` / `500`
checks in part_001's `retryWithBackoff`). -/
structure JsError where
  message : String
  status : Option Nat
  deriving Repr, DecidableEq

/-- `makeGenerateRequest` (route.js lines 139-161), recursion unrolled on
fuel.  `gen i` is the outcome of the `i`-th provider call (the attempt with
`retryCount = i`); a provider throw is re-raised unchanged; a repair-cascade
failure triggers a re-issue while `retryCount < 2`, then the parse-failure
error.  The wrapper's fuel of 2 covers the maximal recursion depth
(`retryCount` 0 → 1 → 2). -/
def makeGenerateRequestAux (gen : Nat → Except JsError String) :
    Nat → Nat → Except JsError JValue
  | retryCount, 0 =>
    match gen retryCount with
    | .error e => .error e
    | .ok text =>
      match sanitizeAndParseJSON text with
      | some v => .ok v
      | none => .error ⟨"Failed to parse AI response after retries", none⟩
  | retryCount, fuel + 1 =>
    match gen retryCount with
    | .error e => .error e
    | .ok text =>
      match sanitizeAndParseJSON text with
      | some v => .ok v
      | none =>
        if retryCount < 2 then makeGenerateRequestAux gen (retryCount + 1) fuel
        else .error ⟨"Failed to parse AI response after retries", none⟩

/-- `makeGenerateRequest(model, prompt)` with the default `retryCount = 0`. -/
def makeGenerateRequest (gen : Nat → Except JsError String) :
    Except JsError JValue :=
  makeGenerateRequestAux gen 0 2

/-- The regex chunker `content.match(new RegExp(`.{1,C}`, 'g')) || []`
(route.js line 181, OpenRouter variant line 767).  `.` does not match line
terminators, so each match is a maximal run of up to `C` consecutive
non-terminator characters; line terminators are skipped between matches; no
match at all yields `[]`.  Faithful for `C ≥ 1` (for `C = 0` the JS regex
literal `.{1,0}` is a SyntaxError). -/
def chunkRegexGo (C : Nat) : Nat → List Char → List (List Char)
  | 0, _ => []
  | _ + 1, [] => []
  | fuel + 1, c :: rest =>
    if isLineTerminator c then chunkRegexGo C fuel rest
    else
      let m := (rest.takeWhile (fun x => !isLineTerminator x)).take (C - 1)
      (c :: m) :: chunkRegexGo C fuel (rest.drop m.length)

/-- Wrapper supplying the fuel for `chunkRegexGo` (each scanning step consumes
at least one character, so `length + 1` steps always finish the input). -/
def chunkRegex (C : Nat) (s : List Char) : List (List Char) :=
  chunkRegexGo C (s.length + 1) s

/-- The slice chunker: `chunkArray` (route.js lines 167-173) over arrays, and
the `content.slice(i, i + chunkSize)` loop of part_001 (lines 56-58 and
480-484) over strings — both walk the sequence in strides of `size`.
Faithful for `size ≥ 1` (for `size = 0` the JS loops never advance). -/
def chunkArrayGo (size : Nat) : Nat → List α → List (List α)
  | 0, _ => []
  | _ + 1, [] => []
  | fuel + 1, c :: rest =>
    (c :: rest.take (size - 1)) :: chunkArrayGo size fuel (rest.drop (size - 1))

/-- Wrapper supplying the fuel for `chunkArrayGo` (each stride consumes at
least one element, so `length + 1` steps always finish the input). -/
def chunkArray (size : Nat) (s : List α) : List (List α) :=
  chunkArrayGo size (s.length + 1) s

/-! ### The merge step of route.js `generateStudyMaterials` (lines 213-233) -/

/-- A flashcard of the merged document. -/
structure Flashcard where
  question : String
  answer : String
  deriving Repr, DecidableEq

/-- A quiz entry of the merged document. -/
structure QuizItem where
  question : String
  options : List String
  correctAnswer : String
  difficulty : String
  deriving Repr, DecidableEq

/-- One chunk's decoded response as consumed by the merge: each array field
is absent (`none`, a falsy `response.summary` skips the push) or present. -/
structure MaterialsResponse where
  summary : Option (List String)
  flashcards : Option (List Flashcard)
  quiz : Option (List QuizItem)
  deriving Repr

/-- The merged document. -/
structure CombinedMaterials where
  summary : List String
  flashcards : List Flashcard
  quiz : List QuizItem
  deriving Repr

/-- `Array.prototype.findIndex`: index of the first element satisfying `p`
(JS returns `-1`, modelled as `none`, when there is none). -/
def jsFindIndex (p : α → Bool) : List α → Option Nat
  | [] => none
  | x :: xs => if p x then some 0 else (jsFindIndex p xs).map (· + 1)

/-- `self.filter((x, index, self) => index === self.findIndex(c => key(c) === key(x)))`,
the JS dedup idiom of route.js lines 228-233: keep the element at `index`
exactly when the first index holding its key is `index` itself. -/
def dedupByKeyGo (key : α → String) (self : List α) : Nat → List α → List α
  | _, [] => []
  | i, a :: rest =>
    (if jsFindIndex (fun c => key c == key a) self == some i then [a] else []) ++
      dedupByKeyGo key self (i + 1) rest

/-- The dedup entry point: scan `self` with its own indices. -/
def dedupByKey (key : α → String) (self : List α) : List α :=
  dedupByKeyGo key self 0 self

/-- "First occurrence wins" as the specification words it, with the set of
already-seen keys made explicit. -/
def keepFirstByAux (key : α → String) : List String → List α → List α
  | _, [] => []
  | seen, x :: xs =>
    if seen.contains (key x) then keepFirstByAux key seen xs
    else x :: keepFirstByAux key (key x :: seen) xs

/-- Deduplication keeping the first occurrence of each key, in order. -/
def keepFirstBy (key : α → String) (l : List α) : List α :=
  keepFirstByAux key [] l

/-- `Array.from(new Set(l))` / `[...new Set(l)]` on strings: distinct values
in insertion order, i.e. first occurrences. -/
def setDedup (l : List String) : List String :=
  keepFirstBy (fun s => s) l

/-- The combine-and-dedup step of route.js `generateStudyMaterials` (lines
213-233): concatenate present fields across all responses in order, then
dedup `summary` via `Set` and `flashcards`/`quiz` by first index with equal
`question`. -/
def combineMaterials (allResponses : List MaterialsResponse) : CombinedMaterials :=
  { summary := setDedup (allResponses.flatMap (fun r => r.summary.getD []))
    flashcards := dedupByKey (fun c => c.question)
      (allResponses.flatMap (fun r => r.flashcards.getD []))
    quiz := dedupByKey (fun q => q.question)
      (allResponses.flatMap (fun r => r.quiz.getD [])) }

/-- Sequential `mapM` over `Except`, the deterministic model of both the
sequential batch loop and `Promise.all` within a batch (first error in array
order rejects; later results are discarded). -/
def exceptMapList (f : α → Except JsError β) : List α → Except JsError (List β)
  | [] => .ok []
  | a :: as =>
    match f a with
    | .error e => .error e
    | .ok b =>
      match exceptMapList f as with
      | .error e => .error e
      | .ok bs => .ok (b :: bs)

/-- The error rewrap of route.js lines 240-246: classify by message
substring. -/
def classifyGenError (msg : String) : String :=
  if containsSubstr msg.data "rate limit".data then
    "API rate limit reached. Please try again in a few minutes."
  else if containsSubstr msg.data "Invalid JSON".data then
    "Error processing content. Please try with a different video."
  else
    "Failed to generate study materials. Please try again."

/-- `generateStudyMaterials` (route.js lines 175-248) with the per-chunk
provider interaction abstracted as `genChunk`: chunk the content (regex,
`C = 10000`), group into batches of 3, process batches sequentially and
chunks within a batch via `Promise.all`, then combine; any chunk error
aborts the run and is rethrown with a classified message. -/
def generateStudyMaterials
    (genChunk : List Char → Except JsError MaterialsResponse)
    (content : String) : Except JsError CombinedMaterials :=
  let contentChunks := chunkRegex 10000 content.data
  let chunks := chunkArray 3 contentChunks
  match exceptMapList (exceptMapList genChunk) chunks with
  | .error e => .error ⟨classifyGenError e.message, none⟩
  | .ok groups => .ok (combineMaterials groups.flatten)

/-! ### `retryWithBackoff` (part_001 lines 444-474) -/

/-- One run of `retryWithBackoff`, returning the outcome and the list of
delays awaited (in ms, in order).  `fn i` is the outcome of the `i`-th call.
`retries` is the source's counter before the current failure is counted; on
failure it is incremented, the cap `retries > maxRetries` is checked, then
status 429 gives `initialDelay * 2^(retries-1)` (with the incremented
counter, hence exponent `retries` here), status 500 gives a fixed 15000, and
any other error is rethrown without retrying.  The wrapper's fuel of
`maxRetries` maintains `fuel = maxRetries - retries`, so the fuel-0 equation
(reached only with `retries = maxRetries`, where the incremented counter
exceeds the cap) agrees with the source. -/
def retryWithBackoffAux (fn : Nat → Except JsError α) (maxRetries initialDelay : Nat) :
    Nat → Nat → Nat → Except JsError α × List Nat
  | _, callIdx, 0 =>
    match fn callIdx with
    | .ok a => (.ok a, [])
    | .error e => (.error e, [])
  | retries, callIdx, fuel + 1 =>
    match fn callIdx with
    | .ok a => (.ok a, [])
    | .error e =>
      if retries + 1 > maxRetries then (.error e, [])
      else if e.status == some 429 then
        let (res, ds) := retryWithBackoffAux fn maxRetries initialDelay
          (retries + 1) (callIdx + 1) fuel
        (res, initialDelay * 2 ^ retries :: ds)
      else if e.status == some 500 then
        let (res, ds) := retryWithBackoffAux fn maxRetries initialDelay
          (retries + 1) (callIdx + 1) fuel
        (res, 15000 :: ds)
      else (.error e, [])

/-- `retryWithBackoff(fn, maxRetries, initialDelay)` from the initial state. -/
def retryWithBackoff (fn : Nat → Except JsError α) (maxRetries initialDelay : Nat) :
    Except JsError α × List Nat :=
  retryWithBackoffAux fn maxRetries initialDelay 0 0 maxRetries

/-! ### The combine step of part_001 `generateStudyMaterials` (lines 552-560;
the first part_001 variant, lines 136-143, combines hashtags identically) -/

/-- `x || default` for an optional string field (`''` is falsy). -/
def jsOrString (v : Option String) (dflt : String) : String :=
  match v with
  | some s => if s == "" then dflt else s
  | none => dflt

/-- One chunk's decoded response in the part_001 variant (fields reaching the
combine step; `r.field || []` turns absent into empty). -/
structure GeminiResult where
  summary : Option (List String)
  flashcards : Option (List Flashcard)
  quiz : Option (List QuizItem)
  hashtags : Option (List String)
  difficulty_level : Option String
  estimated_study_time : Option String
  deriving Repr

/-- The combined document of the part_001 variant. -/
structure GeminiCombined where
  summary : List String
  flashcards : List Flashcard
  quiz : List QuizItem
  hashtags : List String
  difficulty_level : String
  estimated_study_time : String
  deriving Repr

/-- Part_001 lines 552-560: flat concatenation of `summary`, `flashcards` and
`quiz` (no dedup), hashtags deduplicated via `Set` and truncated to 8 (no
case normalization), `difficulty_level`/`estimated_study_time` from
`allResults[0]` with `||` defaults.  The combine runs only when
`chunks.length > 1`, so the result list is nonempty — modelled by the
explicit head. -/
def combineChunkResults (first : GeminiResult) (rest : List GeminiResult) :
    GeminiCombined :=
  let allResults := first :: rest
  { summary := allResults.flatMap (fun r => r.summary.getD [])
    flashcards := allResults.flatMap (fun r => r.flashcards.getD [])
    quiz := allResults.flatMap (fun r => r.quiz.getD [])
    hashtags := (setDedup (allResults.flatMap (fun r => r.hashtags.getD []))).take 8
    difficulty_level := jsOrString first.difficulty_level "beginner"
    estimated_study_time := jsOrString first.estimated_study_time "30 minutes" }

/-- The lowercase normalization applied to each hashtag — by
`storeStudyMaterials` at persistence time (`tag.toLowerCase()`, part_001 line
677 and route.js line 401), not by the combine step.  ASCII lowering (all
hashtags under study are ASCII). -/
def storedHashtag (tag : String) : String :=
  ⟨tag.data.map Char.toLower⟩

/-! ### The OpenRouter variant's `POST` combine (route.js second document,
lines 765-814) -/

/-- A question entry of the OpenRouter variant. -/
structure ORQuestion where
  question : String
  options : List String
  correct_answer : String
  deriving Repr, DecidableEq

/-- One chunk's validated response in the OpenRouter variant (`summary` is a
string in this schema; the combine spreads it, pushing its characters). -/
structure ORResponse where
  summary : String
  questions : List ORQuestion
  difficulty_level : String
  estimated_study_time : Int
  deriving Repr

/-- The OpenRouter combined document. -/
structure ORCombined where
  summary : List String
  questions : List ORQuestion
  difficulty_level : String
  estimated_study_time : Int
  deriving Repr

/-- The combine step of the OpenRouter `POST` (lines 797-814): the
`combinedMaterials` literal reads `allResponses[0].difficulty_level` and
`allResponses[0].estimated_study_time` unconditionally — on an empty result
list `allResponses[0]` is `undefined` and the property read throws a
`TypeError`.  With at least one response, `summary` collects the spread
characters of each truthy summary string (deduped via `Set`) and `questions`
are deduplicated by first index with equal `question`. -/
def combineOpenRouter (allResponses : List ORResponse) :
    Except JsError ORCombined :=
  match allResponses with
  | [] => .error ⟨"Cannot read properties of undefined (reading 'difficulty_level')", none⟩
  | first :: _ =>
    .ok { summary := setDedup (allResponses.flatMap
            (fun r => r.summary.data.map (fun ch => String.mk [ch])))
          questions := dedupByKey (fun q => q.question)
            (allResponses.flatMap (fun r => r.questions))
          difficulty_level := first.difficulty_level
          estimated_study_time := first.estimated_study_time }

/-- The chunking-generation-combine portion of the OpenRouter `POST` (lines
765-814), with the per-chunk request abstracted as `gen`: regex chunker with
`C = 5000`, batches of 3 processed as in the route.js orchestrator, then
`combineOpenRouter`. -/
def openRouterPipeline (gen : List Char → Except JsError ORResponse)
    (content : String) : Except JsError ORCombined :=
  let contentChunks := chunkRegex 5000 content.data
  let chunks := chunkArray 3 contentChunks
  match exceptMapList (exceptMapList gen) chunks with
  | .error e => .error e
  | .ok groups => combineOpenRouter groups.flatten

/-! ## Accessors used in claim statements -/

/-- The `quiz` array of a parsed document. -/
def quizEntries (v : JValue) : List JValue :=
  getArrD (getField v "quiz")

/-- A string-valued field of an entry (`""` when absent or not a string). -/
def entryStr (q : JValue) (k : String) : String :=
  getStrD (getField q k)

/-- The option strings of a quiz entry. -/
def entryOptionStrings (q : JValue) : List String :=
  (getArrD (getField q "options")).map (fun o => getStrD (some o))

/-! ## Helper lemmas -/

lemma takeWhile_eq_self_of_all {p : α → Bool} :
    ∀ l : List α, (∀ c ∈ l, p c = true) → l.takeWhile p = l := by
  intro l h
  induction l with
  | nil => rfl
  | cons c rest ih =>
    rw [List.takeWhile_cons, h c (List.mem_cons_self c rest)]
    simp [ih fun x hx => h x (List.mem_cons_of_mem c hx)]

lemma drop_min_length (n : Nat) (l : List α) : l.drop (min n l.length) = l.drop n := by
  rcases Nat.le_total n l.length with h | h
  · rw [Nat.min_eq_left h]
  · rw [Nat.min_eq_right h, List.drop_length, List.drop_eq_nil_of_le h]

lemma chunkArrayGo_flatten (size : Nat) :
    ∀ (fuel : Nat) (s : List α), s.length ≤ fuel →
      (chunkArrayGo size fuel s).flatten = s := by
  intro fuel
  induction fuel with
  | zero =>
    intro s h
    have : s = [] := List.eq_nil_of_length_eq_zero (Nat.le_zero.mp h)
    subst this; rfl
  | succ f ih =>
    intro s h
    cases s with
    | nil => rfl
    | cons c rest =>
      have hlen : (rest.drop (size - 1)).length ≤ f := by
        simp only [List.length_drop]
        simp only [List.length_cons] at h
        omega
      simp only [chunkArrayGo, List.flatten_cons, ih _ hlen, List.cons_append,
        List.take_append_drop]

lemma chunkArrayGo_mem (size : Nat) (hs : 1 ≤ size) :
    ∀ (fuel : Nat) (s : List α), ∀ ch ∈ chunkArrayGo size fuel s,
      ch ≠ [] ∧ ch.length ≤ size := by
  intro fuel
  induction fuel with
  | zero => intro s ch hch; simp [chunkArrayGo] at hch
  | succ f ih =>
    intro s ch hch
    cases s with
    | nil => simp [chunkArrayGo] at hch
    | cons c rest =>
      simp only [chunkArrayGo, List.mem_cons] at hch
      rcases hch with rfl | hch
      · refine ⟨by simp, ?_⟩
        simp only [List.length_cons, List.length_take]
        omega
      · exact ih _ ch hch

lemma chunkRegexGo_clean (C : Nat) :
    ∀ (fuel : Nat) (s : List Char), (∀ c ∈ s, isLineTerminator c = false) →
      chunkRegexGo C fuel s = chunkArrayGo C fuel s := by
  intro fuel
  induction fuel with
  | zero => intro s _; rfl
  | succ f ih =>
    intro s h
    cases s with
    | nil => rfl
    | cons c rest =>
      have hc : isLineTerminator c = false := h c (List.mem_cons_self c rest)
      have hrest : ∀ x ∈ rest, isLineTerminator x = false :=
        fun x hx => h x (List.mem_cons_of_mem c hx)
      have htw : rest.takeWhile (fun x => !isLineTerminator x) = rest :=
        takeWhile_eq_self_of_all rest (by intro x hx; simp [hrest x hx])
      simp only [chunkRegexGo, hc, Bool.false_eq_true, if_false, htw, chunkArrayGo]
      rw [List.length_take, drop_min_length]
      exact congrArg _ (ih _ fun x hx => hrest x (List.mem_of_mem_drop hx))

/-- C1 amended, chunker half: for `C ≥ 1` the slice chunker reconstructs any
content, and the regex chunker reconstructs content free of line
terminators; all chunks are nonempty of length at most `C`, and empty
content gives no chunks. -/
theorem chunkArray_and_chunkRegex_correct (C : Nat) (hC : 1 ≤ C) :
    (∀ s : List Char, (chunkArray C s).flatten = s ∧
      (∀ ch ∈ chunkArray C s, ch ≠ [] ∧ ch.length ≤ C)) ∧
    chunkArray C ([] : List Char) = [] ∧
    (∀ s : List Char, (∀ c ∈ s, isLineTerminator c = false) →
      (chunkRegex C s).flatten = s ∧
      (∀ ch ∈ chunkRegex C s, ch ≠ [] ∧ ch.length ≤ C)) ∧
    chunkRegex C [] = [] := by
  refine ⟨fun s => ⟨?_, fun ch hch => ?_⟩, rfl, fun s hclean => ⟨?_, fun ch hch => ?_⟩, rfl⟩
  · exact chunkArrayGo_flatten C _ s (Nat.le_succ_of_le (Nat.le_refl _))
  · exact chunkArrayGo_mem C hC _ s ch hch
  · rw [chunkRegex, chunkRegexGo_clean C _ s hclean]
    exact chunkArrayGo_flatten C _ s (Nat.le_succ_of_le (Nat.le_refl _))
  · rw [chunkRegex, chunkRegexGo_clean C _ s hclean] at hch
    exact chunkArrayGo_mem C hC _ s ch hch

/-- C1 counterexample: on content containing a line terminator the regex
chunker drops the terminator, so concatenating the chunks does not
reconstruct the content; all-terminator content is nonempty yet yields no
chunks. -/
theorem chunkRegex_newline_counterexample :
    chunkRegex 2 "a\nb".data = [['a'], ['b']] ∧
    (chunkRegex 2 "a\nb".data).flatten ≠ "a\nb".data ∧
    chunkRegex 2 "\n".data = [] ∧ "\n".data ≠ [] := by
  refine ⟨?_, ?_, ?_, ?_⟩ <;> decide

/-- C1 witness: the amended theorem at `C = 2` on the specification's own
example content `"A.B.C."`. -/
theorem chunkArray_and_chunkRegex_correct_witness :
    (chunkRegex 2 "A.B.C.".data).flatten = "A.B.C.".data ∧
    chunkRegex 2 "A.B.C.".data = [['A', '.'], ['B', '.'], ['C', '.']] ∧
    (chunkArray 2 "A.B.C.".data).flatten = "A.B.C.".data :=
  ⟨((chunkArray_and_chunkRegex_correct 2 (by decide)).2.2.1 "A.B.C.".data (by decide)).1,
   rfl,
   ((chunkArray_and_chunkRegex_correct 2 (by decide)).1 "A.B.C.".data).1⟩

/-! ### C5: `retryWithBackoff` -/

lemma retryWithBackoffAux_429 {α : Type} (fn : Nat → Except JsError α)
    (m d : Nat) (e : JsError) (hfn : ∀ n, fn n = .error e)
    (hst : e.status = some 429) :
    ∀ (k retries callIdx fuel : Nat), retries + k = m → k ≤ fuel →
      retryWithBackoffAux fn m d retries callIdx fuel =
        (.error e, (List.range k).map (fun n => d * 2 ^ (retries + n))) := by
  intro k
  induction k with
  | zero =>
    intro retries callIdx fuel hm _
    cases fuel with
    | zero => simp [retryWithBackoffAux, hfn callIdx]
    | succ f =>
      have hcap : retries + 1 > m := by omega
      simp [retryWithBackoffAux, hfn callIdx, hcap]
  | succ k ih =>
    intro retries callIdx fuel hm hf
    obtain ⟨f, rfl⟩ : ∃ f, fuel = f + 1 := ⟨fuel - 1, by omega⟩
    have hcap : ¬ retries + 1 > m := by omega
    rw [retryWithBackoffAux, hfn callIdx]
    simp only [hcap, if_false, hst]
    rw [ih (retries + 1) (callIdx + 1) f (by omega) (by omega)]
    simp only [List.range_succ_eq_map, List.map_cons, List.map_map,
      beq_self_eq_true, if_true, Prod.mk.injEq]
    refine ⟨trivial, ?_⟩
    refine congrArg (List.cons _) ?_
    apply List.map_congr_left
    intro n _
    simp only [Function.comp_apply]
    have h2 : retries + 1 + n = retries + n.succ := by omega
    rw [h2]

lemma retryWithBackoffAux_500 {α : Type} (fn : Nat → Except JsError α)
    (m d : Nat) (e : JsError) (hfn : ∀ n, fn n = .error e)
    (hst : e.status = some 500) :
    ∀ (k retries callIdx fuel : Nat), retries + k = m → k ≤ fuel →
      retryWithBackoffAux fn m d retries callIdx fuel =
        (.error e, List.replicate k 15000) := by
  intro k
  induction k with
  | zero =>
    intro retries callIdx fuel hm _
    cases fuel with
    | zero => simp [retryWithBackoffAux, hfn callIdx]
    | succ f =>
      have hcap : retries + 1 > m := by omega
      simp [retryWithBackoffAux, hfn callIdx, hcap]
  | succ k ih =>
    intro retries callIdx fuel hm hf
    obtain ⟨f, rfl⟩ : ∃ f, fuel = f + 1 := ⟨fuel - 1, by omega⟩
    have hcap : ¬ retries + 1 > m := by omega
    rw [retryWithBackoffAux, hfn callIdx]
    have h429 : (e.status == some 429) = false := by simp [hst]
    simp only [hcap, if_false, h429, hst]
    rw [ih (retries + 1) (callIdx + 1) f (by omega) (by omega)]
    simp [List.replicate_succ]

/-- C5: with every call rate-limited (status 429), `retryWithBackoff`
performs exactly `maxRetries` retries after the initial attempt, the delay
before the `n`-th retry (1-based) is `initialDelay * 2^(n-1)`, and the
rate-limit error propagates; with every call a server error (status 500) the
delays are a fixed 15000 ms under the same cap; an error of any other kind
propagates immediately with no retry and no delay. -/
theorem retryWithBackoff_spec {α : Type} (m d : Nat) (e : JsError) :
    (e.status = some 429 → ∀ fn : Nat → Except JsError α, (∀ n, fn n = .error e) →
      retryWithBackoff fn m d = (.error e, (List.range m).map (fun n => d * 2 ^ n))) ∧
    (e.status = some 500 → ∀ fn : Nat → Except JsError α, (∀ n, fn n = .error e) →
      retryWithBackoff fn m d = (.error e, List.replicate m 15000)) ∧
    (e.status ≠ some 429 → e.status ≠ some 500 →
      ∀ fn : Nat → Except JsError α, fn 0 = .error e →
      retryWithBackoff fn m d = (.error e, [])) := by
  refine ⟨fun hst fn hfn => ?_, fun hst fn hfn => ?_, fun h429 h500 fn hfn => ?_⟩
  · have := retryWithBackoffAux_429 fn m d e hfn hst m 0 0 m (by omega) (Nat.le_refl m)
    simpa [retryWithBackoff] using this
  · have := retryWithBackoffAux_500 fn m d e hfn hst m 0 0 m (by omega) (Nat.le_refl m)
    simpa [retryWithBackoff] using this
  · have hb429 : (e.status == some 429) = false := by
      simp only [beq_eq_false_iff_ne, ne_eq]; exact h429
    have hb500 : (e.status == some 500) = false := by
      simp only [beq_eq_false_iff_ne, ne_eq]; exact h500
    cases m with
    | zero => simp [retryWithBackoff, retryWithBackoffAux, hfn]
    | succ m' =>
      have hcap : ¬ 0 + 1 > m' + 1 := by omega
      simp [retryWithBackoff, retryWithBackoffAux, hfn, hcap, hb429, hb500]

/-- C5 witness: `maxRetries = 3`, `initialDelay = 10000` — three retries with
delays 10 s, 20 s, 40 s for rate limiting; three fixed 15 s delays for server
errors; immediate propagation for a plain error. -/
theorem retryWithBackoff_spec_witness :
    retryWithBackoff ((fun _ => .error ⟨"rate limited", some 429⟩) :
        Nat → Except JsError Nat) 3 10000 =
      (.error ⟨"rate limited", some 429⟩, [10000, 20000, 40000]) ∧
    retryWithBackoff ((fun _ => .error ⟨"server", some 500⟩) :
        Nat → Except JsError Nat) 3 10000 =
      (.error ⟨"server", some 500⟩, [15000, 15000, 15000]) ∧
    retryWithBackoff ((fun _ => .error ⟨"other", none⟩) :
        Nat → Except JsError Nat) 3 10000 =
      (.error ⟨"other", none⟩, []) := by
  refine ⟨?_, ?_, ?_⟩
  · rw [(retryWithBackoff_spec 3 10000 ⟨"rate limited", some 429⟩).1 rfl _ (fun _ => rfl)]
    rfl
  · rw [(retryWithBackoff_spec 3 10000 ⟨"server", some 500⟩).2.1 rfl _ (fun _ => rfl)]
    rfl
  · exact (retryWithBackoff_spec 3 10000 ⟨"other", none⟩).2.2
      (by decide) (by decide) _ rfl

/-! ### C6: parse-retry in `makeGenerateRequest` -/

/-- C6: when the provider call always succeeds with texts `ts i`, the request
is re-issued at most twice after the initial attempt: if the repair cascade
rejects the first three texts the client fails with the parse-failure error
(texts beyond index 2 are never consulted — the statement constrains only
indices `≤ 2`); if repair first succeeds at attempt `k ≤ 2` its result is
returned. -/
theorem makeGenerateRequest_spec (gen : Nat → Except JsError String)
    (ts : Nat → String) (hgen : ∀ i, gen i = .ok (ts i)) :
    ((∀ i, i ≤ 2 → sanitizeAndParseJSON (ts i) = none) →
      makeGenerateRequest gen =
        .error ⟨"Failed to parse AI response after retries", none⟩) ∧
    (∀ k, k ≤ 2 → (∀ i, i < k → sanitizeAndParseJSON (ts i) = none) →
      ∀ d, sanitizeAndParseJSON (ts k) = some d →
      makeGenerateRequest gen = .ok d) := by
  constructor
  · intro h
    simp [makeGenerateRequest, makeGenerateRequestAux, hgen 0, hgen 1, hgen 2,
      h 0 (by omega), h 1 (by omega), h 2 (by omega)]
  · intro k hk h d hd
    interval_cases k
    · simp [makeGenerateRequest, makeGenerateRequestAux, hgen 0, hd]
    · simp [makeGenerateRequest, makeGenerateRequestAux, hgen 0, hgen 1,
        h 0 (by omega), hd]
    · simp [makeGenerateRequest, makeGenerateRequestAux, hgen 0, hgen 1, hgen 2,
        h 0 (by omega), h 1 (by omega), hd]

/-- C6 witness: three unparseable responses exhaust the two re-issues and
fail; an immediately parseable response is returned from the first
attempt. -/
theorem makeGenerateRequest_spec_witness :
    makeGenerateRequest (fun _ => .ok "notjson") =
      .error ⟨"Failed to parse AI response after retries", none⟩ ∧
    makeGenerateRequest (fun _ => .ok "\x7b\x7d") = .ok (.obj []) :=
  ⟨(makeGenerateRequest_spec (fun _ => .ok "notjson") (fun _ => "notjson")
      (fun _ => rfl)).1 (fun _ _ => rfl),
   (makeGenerateRequest_spec (fun _ => .ok "\x7b\x7d") (fun _ => "\x7b\x7d")
      (fun _ => rfl)).2 0 (by omega) (fun i hi => absurd hi (by omega)) (.obj []) rfl⟩

/-! ### C7: the batch orchestrator fails the whole run on any chunk failure -/

lemma exceptMapList_ok_forall {f : α → Except JsError β} :
    ∀ {l : List α} {bs : List β}, exceptMapList f l = .ok bs →
      ∀ a ∈ l, ∃ b, f a = .ok b := by
  intro l
  induction l with
  | nil => intro bs _ a ha; exact absurd ha (List.not_mem_nil a)
  | cons x xs ih =>
    intro bs h a ha
    rcases hfx : f x with e | b
    · rw [exceptMapList, hfx] at h; exact absurd h (by simp)
    · rw [exceptMapList, hfx] at h
      rcases hrest : exceptMapList f xs with e | bs'
      · rw [hrest] at h; exact absurd h (by simp)
      · rcases List.mem_cons.mp ha with rfl | hmem
        · exact ⟨b, hfx⟩
        · exact ih hrest a hmem

lemma exceptMapList_error_exists {f : α → Except JsError β} :
    ∀ {l : List α} {e : JsError}, exceptMapList f l = .error e →
      ∃ a ∈ l, f a = .error e := by
  intro l
  induction l with
  | nil => intro e h; exact absurd h (by simp [exceptMapList])
  | cons x xs ih =>
    intro e h
    rcases hfx : f x with e' | b
    · rw [exceptMapList, hfx] at h
      obtain rfl : e' = e := by simpa using h
      exact ⟨x, List.mem_cons_self x xs, hfx⟩
    · rw [exceptMapList, hfx] at h
      rcases hrest : exceptMapList f xs with e' | bs'
      · rw [hrest] at h
        obtain rfl : e' = e := by simpa using h
        obtain ⟨a, ha, hfa⟩ := ih hrest
        exact ⟨a, List.mem_cons_of_mem x ha, hfa⟩
      · rw [hrest] at h; exact absurd h (by simp)

lemma exceptMapList_error_of_exists {f : α → Except JsError β} {l : List α}
    (h : ∃ a ∈ l, ∃ e, f a = .error e) :
    ∃ e', exceptMapList f l = .error e' := by
  rcases hr : exceptMapList f l with e' | bs
  · exact ⟨e', rfl⟩
  · obtain ⟨a, ha, e, hfa⟩ := h
    obtain ⟨b, hb⟩ := exceptMapList_ok_forall hr a ha
    rw [hfa] at hb
    exact absurd hb (by simp)

lemma chunkArray_flatten (size : Nat) (l : List α) :
    (chunkArray size l).flatten = l :=
  chunkArrayGo_flatten size _ l (Nat.le_succ_of_le (Nat.le_refl _))

/-- C7: if the run returns a merged document, every chunk's generation
succeeded; and if any chunk's generation fails, the whole run fails with the
classified message of some failing chunk's error — partial results are
discarded and no document that omits a chunk is returned. -/
theorem generateStudyMaterials_failfast
    (genChunk : List Char → Except JsError MaterialsResponse) (content : String) :
    (∀ doc, generateStudyMaterials genChunk content = .ok doc →
      ∀ c ∈ chunkRegex 10000 content.data, ∃ r, genChunk c = .ok r) ∧
    ((∃ c ∈ chunkRegex 10000 content.data, ∃ e, genChunk c = .error e) →
      ∃ e0, (∃ c ∈ chunkRegex 10000 content.data, genChunk c = .error e0) ∧
        generateStudyMaterials genChunk content =
          .error ⟨classifyGenError e0.message, none⟩) := by
  have hflat : (chunkArray 3 (chunkRegex 10000 content.data)).flatten
      = chunkRegex 10000 content.data := chunkArray_flatten 3 _
  constructor
  · intro doc hdoc c hc
    rcases hr : exceptMapList (exceptMapList genChunk)
        (chunkArray 3 (chunkRegex 10000 content.data)) with e | gs
    · rw [generateStudyMaterials, hr] at hdoc; exact absurd hdoc (by simp)
    · rw [← hflat] at hc
      obtain ⟨g, hg, hcg⟩ := List.mem_flatten.mp hc
      obtain ⟨rs, hrs⟩ := exceptMapList_ok_forall hr g hg
      exact exceptMapList_ok_forall hrs c hcg
  · rintro ⟨c, hc, e, hce⟩
    rw [← hflat] at hc
    obtain ⟨g, hg, hcg⟩ := List.mem_flatten.mp hc
    obtain ⟨e1, he1⟩ := exceptMapList_error_of_exists ⟨c, hcg, e, hce⟩
    obtain ⟨e2, he2⟩ := exceptMapList_error_of_exists ⟨g, hg, e1, he1⟩
    obtain ⟨g', hg', hge'⟩ := exceptMapList_error_exists he2
    obtain ⟨c', hc', hce'⟩ := exceptMapList_error_exists hge'
    refine ⟨e2, ⟨c', ?_, hce'⟩, ?_⟩
    · rw [← hflat]
      exact List.mem_flatten.mpr ⟨g', hg', hc'⟩
    · rw [generateStudyMaterials, he2]

/-- C7 witness: a run whose single chunk is rate-limited fails with the
classified rate-limit message; a run whose chunks all succeed returns the
merged document. -/
theorem generateStudyMaterials_failfast_witness :
    generateStudyMaterials (fun _ => .error ⟨"rate limit hit", none⟩) "ab" =
      .error ⟨"API rate limit reached. Please try again in a few minutes.", none⟩ ∧
    generateStudyMaterials
      (fun _ => .ok (⟨none, none, none⟩ : MaterialsResponse)) "ab" =
      .ok ⟨[], [], []⟩ := by
  constructor
  · obtain ⟨e0, ⟨c, hc, hce⟩, hrun⟩ :=
      (generateStudyMaterials_failfast
        (fun _ => .error ⟨"rate limit hit", none⟩) "ab").2
        ⟨"ab".data, by decide, ⟨"rate limit hit", none⟩, rfl⟩
    obtain rfl : e0 = ⟨"rate limit hit", none⟩ := by
      simpa using hce.symm
    exact hrun
  · rfl

/-! ### Object-field lemmas for the sanitize pipeline -/

lemma find?_map_replace_self (k : String) (x : JValue) :
    ∀ fs : List (String × JValue),
      (fs.map (fun p => if p.1 == k then (k, x) else p)).find? (fun p => p.1 == k) =
        if fs.any (fun p => p.1 == k) then some (k, x) else none := by
  intro fs
  induction fs with
  | nil => rfl
  | cons p ps ih =>
    by_cases hp : (p.1 == k) = true
    · simp only [List.map_cons, if_pos hp]
      rw [List.find?_cons]
      simp only [show ((k, x).1 == k) = true from by simp, List.any_cons, hp,
        Bool.true_or, if_true]
    · simp only [List.map_cons, if_neg hp, List.any_cons]
      rw [List.find?_cons]
      simp only [hp]
      simp only [Bool.false_or]
      exact ih

lemma find?_append_single_self (k : String) (x : JValue) :
    ∀ fs : List (String × JValue), fs.any (fun p => p.1 == k) = false →
      (fs ++ [(k, x)]).find? (fun p => p.1 == k) = some (k, x) := by
  intro fs
  induction fs with
  | nil => intro _; simp [List.find?_cons]
  | cons p ps ih =>
    intro h
    simp only [List.any_cons, Bool.or_eq_false_iff] at h
    rw [List.cons_append, List.find?_cons]
    simp only [h.1]
    exact ih h.2

lemma find?_map_replace_other (k : String) (x : JValue) (k' : String) (hne : k' ≠ k) :
    ∀ fs : List (String × JValue),
      (fs.map (fun p => if p.1 == k then (k, x) else p)).find? (fun p => p.1 == k') =
        fs.find? (fun p => p.1 == k') := by
  have hkk : (k == k') = false := by
    simp only [beq_eq_false_iff_ne, ne_eq]
    exact fun h => hne h.symm
  intro fs
  induction fs with
  | nil => rfl
  | cons p ps ih =>
    by_cases hp : (p.1 == k) = true
    · have hp1 : p.1 = k := by simpa using hp
      have hpk' : (p.1 == k') = false := by rw [hp1]; exact hkk
      simp only [List.map_cons, if_pos hp]
      rw [List.find?_cons, List.find?_cons]
      simp only [hkk, hpk']
      exact ih
    · simp only [List.map_cons, if_neg hp]
      rw [List.find?_cons, List.find?_cons]
      by_cases hp' : (p.1 == k') = true
      · simp only [hp']
      · simp only [Bool.not_eq_true] at hp'
        simp only [hp']
        exact ih

lemma find?_append_single_other (k : String) (x : JValue) (k' : String) (hne : k' ≠ k) :
    ∀ fs : List (String × JValue),
      (fs ++ [(k, x)]).find? (fun p => p.1 == k') = fs.find? (fun p => p.1 == k') := by
  have hkk : (k == k') = false := by
    simp only [beq_eq_false_iff_ne, ne_eq]
    exact fun h => hne h.symm
  intro fs
  induction fs with
  | nil => simp [List.find?_cons, hkk]
  | cons p ps ih =>
    rw [List.cons_append, List.find?_cons, List.find?_cons]
    by_cases hp : (p.1 == k') = true
    · simp only [hp]
    · simp only [Bool.not_eq_true] at hp
      simp only [hp]
      exact ih

lemma getField_insertField_self (fs : List (String × JValue)) (k : String) (x : JValue) :
    getField (.obj (insertField fs k x)) k = some x := by
  rw [getField, insertField]
  by_cases hany : fs.any (fun p => p.1 == k) = true
  · rw [if_pos hany, find?_map_replace_self, if_pos hany]
    rfl
  · rw [if_neg hany,
      find?_append_single_self k x fs (Bool.not_eq_true _ ▸ hany)]
    rfl

lemma getField_insertField_other (fs : List (String × JValue)) (k : String) (x : JValue)
    (k' : String) (hne : k' ≠ k) :
    getField (.obj (insertField fs k x)) k' = getField (.obj fs) k' := by
  rw [getField, insertField, getField]
  by_cases hany : fs.any (fun p => p.1 == k) = true
  · rw [if_pos hany, find?_map_replace_other k x k' hne]
  · rw [if_neg hany, find?_append_single_other k x k' hne]

lemma validStructure_obj {parsed : JValue} (h : validStructure parsed = true) :
    ∃ fs, parsed = .obj fs := by
  cases parsed with
  | obj fs => exact ⟨fs, rfl⟩
  | null => simp [validStructure, getField, truthyField] at h
  | bool b => simp [validStructure, getField, truthyField] at h
  | num n => simp [validStructure, getField, truthyField] at h
  | str s => simp [validStructure, getField, truthyField] at h
  | arr xs => simp [validStructure, getField, truthyField] at h

lemma sanitizeParsed_fields {parsed d : JValue} (h : sanitizeParsed parsed = some d) :
    validStructure parsed = true ∧
    getField d "summary" = some (.arr (((getArrD (getField parsed "summary")).map
      (fun item => JValue.str (jsTrim (jsToString item)))).filter truthy)) ∧
    getField d "flashcards" = some (.arr (((getArrD (getField parsed "flashcards")).filter
      flashcardOk).map mkFlashcard)) ∧
    getField d "quiz" = some (.arr (((getArrD (getField parsed "quiz")).filter
      quizOk).map mkQuiz)) := by
  by_cases hv : validStructure parsed = true
  · obtain ⟨fs, rfl⟩ := validStructure_obj hv
    rw [sanitizeParsed, if_pos hv] at h
    obtain rfl : _ = d := Option.some.inj h
    refine ⟨hv, ?_, ?_, ?_⟩ <;> simp only [setField]
    · rw [getField_insertField_other _ _ _ _ (by decide),
        getField_insertField_other _ _ _ _ (by decide)]
      exact getField_insertField_self _ _ _
    · rw [getField_insertField_other _ _ _ _ (by decide)]
      exact getField_insertField_self _ _ _
    · exact getField_insertField_self _ _ _
  · rw [sanitizeParsed, if_neg hv] at h
    exact absurd h (by simp)

lemma validStructure_of_sanitizeParsed {parsed d : JValue}
    (h : sanitizeParsed parsed = some d) : validStructure d = true := by
  obtain ⟨-, hs, hf, hq⟩ := sanitizeParsed_fields h
  rw [validStructure, hs, hf, hq]
  rfl

lemma sanitizeParsed_quiz {parsed d : JValue} (h : sanitizeParsed parsed = some d) :
    quizEntries d = ((getArrD (getField parsed "quiz")).filter quizOk).map mkQuiz := by
  rw [quizEntries, (sanitizeParsed_fields h).2.2.2]
  rfl

/-! ### C2: the correctAnswer-membership invariant is not enforced -/

set_option maxRecDepth 100000 in
/-- C2 counterexample: a raw response whose only quiz entry has
`correctAnswer = "X"` with options `["A","B","C","D"]` survives the repair
cascade intact (recovered at stage 2 after the leading garbage is sliced
away) — the entry is retained even though its `correctAnswer` is not among
its 4 options. -/
theorem sanitize_keeps_bad_correctAnswer :
    ((sanitizeAndParseJSON "x\x7b\"summary\":[],\"flashcards\":[],\"quiz\":[\x7b\"question\":\"Q\",\"options\":[\"A\",\"B\",\"C\",\"D\"],\"correctAnswer\":\"X\"\x7d]\x7d").map
      (fun d => (quizEntries d).map
        (fun q => (entryStr q "correctAnswer", entryOptionStrings q)))) =
      some [("X", ["A", "B", "C", "D"])] ∧
    ("X" ∈ (["A", "B", "C", "D"] : List String)) = False := by
  constructor
  · rfl
  · simp

/-- C2 amended: during repair (stage 2 of the cascade), quiz entries are
dropped exactly when they fail the type checks of `quizOk` (entry truthy,
string `question`, array `options`, string `correctAnswer`); no check that
`correctAnswer` is among the options (nor that there are 4 of them) is
performed, so every type-correct entry is retained as its trimmed rebuild
`mkQuiz`. -/
theorem sanitizeParsed_quiz_spec (parsed d : JValue)
    (h : sanitizeParsed parsed = some d) :
    quizEntries d = ((getArrD (getField parsed "quiz")).filter quizOk).map mkQuiz ∧
    ∀ q ∈ getArrD (getField parsed "quiz"), quizOk q = true →
      mkQuiz q ∈ quizEntries d := by
  refine ⟨sanitizeParsed_quiz h, fun q hq hok => ?_⟩
  rw [sanitizeParsed_quiz h]
  exact List.mem_map_of_mem mkQuiz (List.mem_filter.mpr ⟨hq, hok⟩)

set_option maxRecDepth 100000 in
/-- C2 witness: the amended theorem applied to a document whose quiz entry
has `correctAnswer` outside its options — the entry is retained with the
default difficulty. -/
theorem sanitizeParsed_quiz_spec_witness :
    quizEntries ((sanitizeParsed (JValue.obj
      [("summary", .arr []), ("flashcards", .arr []),
       ("quiz", .arr [JValue.obj [("question", .str "Q"),
         ("options", .arr [.str "A", .str "B", .str "C", .str "D"]),
         ("correctAnswer", .str "X")]])])).getD .null) =
      [JValue.obj [("question", .str "Q"),
        ("options", .arr [.str "A", .str "B", .str "C", .str "D"]),
        ("correctAnswer", .str "X"), ("difficulty", .str "medium")]] := by
  have h : sanitizeParsed (JValue.obj
      [("summary", .arr []), ("flashcards", .arr []),
       ("quiz", .arr [JValue.obj [("question", .str "Q"),
         ("options", .arr [.str "A", .str "B", .str "C", .str "D"]),
         ("correctAnswer", .str "X")]])]) = some ((sanitizeParsed (JValue.obj
      [("summary", .arr []), ("flashcards", .arr []),
       ("quiz", .arr [JValue.obj [("question", .str "Q"),
         ("options", .arr [.str "A", .str "B", .str "C", .str "D"]),
         ("correctAnswer", .str "X")]])])).getD .null) := rfl
  rw [(sanitizeParsed_quiz_spec _ _ h).1]
  rfl

/-! ### C3: schema validation is skipped when the direct parse succeeds -/

/-- C3 counterexample: `{"a": 1}` is valid JSON with all three top-level
arrays missing; the direct-parse stage returns it as a document instead of
failing — no schema check runs on the first stage. -/
theorem directParse_skips_validation :
    (sanitizeAndParseJSON "\x7b\"a\": 1\x7d").isSome = true ∧
    (sanitizeAndParseJSON "\x7b\"a\": 1\x7d").map validStructure = some false := by
  exact ⟨rfl, rfl⟩

/-- C3 amended: when the direct parse succeeds its value is returned with no
schema check at all; only when the direct parse fails does validation happen
— any document returned from the later stages has the three top-level arrays
(stage 2 additionally filters entries, stage 3 does not). -/
theorem sanitizeAndParseJSON_stage_validation (t : String) :
    (∀ v, jsonParse t.data = some v → sanitizeAndParseJSON t = some v) ∧
    (jsonParse t.data = none → ∀ d, sanitizeAndParseJSON t = some d →
      validStructure d = true) := by
  constructor
  · intro v hv
    rw [sanitizeAndParseJSON, hv]
  · intro hnone d hd
    rw [sanitizeAndParseJSON, hnone] at hd
    simp only at hd
    rcases h2p : jsonParse (cleanTextStage2 t.data) with _ | parsed
    · rw [h2p] at hd
      simp only at hd
      rcases h3p : jsonParse (cleanTextStage3 (cleanTextStage2 t.data)) with _ | fp
      · rw [h3p] at hd
        exact absurd hd (by simp)
      · rw [h3p] at hd
        simp only at hd
        by_cases hvs : validStructure fp = true
        · rw [if_pos hvs] at hd
          obtain rfl : fp = d := Option.some.inj hd
          exact hvs
        · rw [if_neg hvs] at hd
          exact absurd hd (by simp)
    · rw [h2p] at hd
      simp only at hd
      rcases hsp : sanitizeParsed parsed with _ | v
      · rw [hsp] at hd
        simp only at hd
        rcases h3p : jsonParse (cleanTextStage3 (cleanTextStage2 t.data)) with _ | fp
        · rw [h3p] at hd
          exact absurd hd (by simp)
        · rw [h3p] at hd
          simp only at hd
          by_cases hvs : validStructure fp = true
          · rw [if_pos hvs] at hd
            obtain rfl : fp = d := Option.some.inj hd
            exact hvs
          · rw [if_neg hvs] at hd
            exact absurd hd (by simp)
      · rw [hsp] at hd
        obtain rfl : v = d := Option.some.inj hd
        exact validStructure_of_sanitizeParsed hsp

/-- C3 witness: the amended theorem applied to (a) a directly parseable text
missing every top-level array, returned as-is, and (b) a stage-2-recovered
text, whose result passes the structure check. -/
theorem sanitizeAndParseJSON_stage_validation_witness :
    sanitizeAndParseJSON "\x7b\"a\": 1\x7d" = some (.obj [("a", .num 1)]) ∧
    validStructure ((sanitizeAndParseJSON
      "x\x7b\"summary\":[],\"flashcards\":[],\"quiz\":[]\x7d").getD .null) = true := by
  constructor
  · exact (sanitizeAndParseJSON_stage_validation "\x7b\"a\": 1\x7d").1 _ rfl
  · exact (sanitizeAndParseJSON_stage_validation
      "x\x7b\"summary\":[],\"flashcards\":[],\"quiz\":[]\x7d").2 rfl _ rfl

/-! ### C9: missing `difficulty` defaults to `"medium"` during repair -/

/-- C9: a quiz entry passing the type checks — string `question`, array
`options` (here of strings), string `correctAnswer` — that lacks a
`difficulty` field is retained by the repair and rebuilt with `difficulty`
set to `"medium"`; its other fields change only by whitespace trimming. -/
theorem quiz_default_difficulty (parsed d q : JValue) (qs ca : String)
    (opts : List JValue)
    (h : sanitizeParsed parsed = some d)
    (hq : q ∈ getArrD (getField parsed "quiz"))
    (hqs : getField q "question" = some (.str qs))
    (hopts : getField q "options" = some (.arr opts))
    (hstr : ∀ o ∈ opts, ∃ s, o = JValue.str s)
    (hca : getField q "correctAnswer" = some (.str ca))
    (hdiff : getField q "difficulty" = none) :
    mkQuiz q ∈ quizEntries d ∧
    mkQuiz q = .obj [("question", .str (jsTrim qs)),
      ("options", .arr (opts.map (fun o => JValue.str (jsTrim (getStrD (some o)))))),
      ("correctAnswer", .str (jsTrim ca)),
      ("difficulty", .str "medium")] := by
  have hobj : truthy q = true := by
    cases q with
    | obj fs => rfl
    | null => simp [getField] at hqs
    | bool b => simp [getField] at hqs
    | num n => simp [getField] at hqs
    | str s => simp [getField] at hqs
    | arr xs => simp [getField] at hqs
  have hok : quizOk q = true := by
    rw [quizOk, hobj, hqs, hopts, hca]
    rfl
  constructor
  · rw [sanitizeParsed_quiz h]
    exact List.mem_map_of_mem mkQuiz (List.mem_filter.mpr ⟨hq, hok⟩)
  · rw [mkQuiz, hqs, hopts, hca, hdiff]
    refine congrArg (fun l => JValue.obj l) ?_
    simp only [getStrD, getArrD, jsOr]
    refine congrArg (fun l => [("question", JValue.str (jsTrim qs)),
      ("options", JValue.arr l), ("correctAnswer", JValue.str (jsTrim ca)),
      ("difficulty", JValue.str "medium")] : List JValue → _) ?_
    apply List.map_congr_left
    intro o ho
    obtain ⟨s, rfl⟩ := hstr o ho
    rfl

set_option maxRecDepth 100000 in
/-- C9 witness: a concrete entry without `difficulty` is retained and
defaulted to `"medium"`, with `question`/`options`/`correctAnswer` merely
trimmed. -/
theorem quiz_default_difficulty_witness :
    mkQuiz (JValue.obj [("question", .str " Q "),
      ("options", .arr [.str "A", .str " B"]),
      ("correctAnswer", .str "A ")]) ∈
      quizEntries ((sanitizeParsed (JValue.obj
        [("summary", .arr []), ("flashcards", .arr []),
         ("quiz", .arr [JValue.obj [("question", .str " Q "),
           ("options", .arr [.str "A", .str " B"]),
           ("correctAnswer", .str "A ")]])])).getD .null) ∧
    mkQuiz (JValue.obj [("question", .str " Q "),
      ("options", .arr [.str "A", .str " B"]),
      ("correctAnswer", .str "A ")]) =
      .obj [("question", .str "Q"),
        ("options", .arr [.str "A", .str "B"]),
        ("correctAnswer", .str "A"),
        ("difficulty", .str "medium")] := by
  have h : sanitizeParsed (JValue.obj
      [("summary", .arr []), ("flashcards", .arr []),
       ("quiz", .arr [JValue.obj [("question", .str " Q "),
         ("options", .arr [.str "A", .str " B"]),
         ("correctAnswer", .str "A ")]])]) = some ((sanitizeParsed (JValue.obj
      [("summary", .arr []), ("flashcards", .arr []),
       ("quiz", .arr [JValue.obj [("question", .str " Q "),
         ("options", .arr [.str "A", .str " B"]),
         ("correctAnswer", .str "A ")]])])).getD .null) := rfl
  have hmain := quiz_default_difficulty _ _
    (JValue.obj [("question", .str " Q "),
      ("options", .arr [.str "A", .str " B"]),
      ("correctAnswer", .str "A ")]) " Q " "A " [.str "A", .str " B"]
    h (by simp [getField, getArrD]) rfl rfl
    (by intro o ho
        rcases List.mem_cons.mp ho with rfl | ho'
        · exact ⟨"A", rfl⟩
        · rcases List.mem_cons.mp ho' with rfl | ho''
          · exact ⟨" B", rfl⟩
          · exact absurd ho'' (List.not_mem_nil o))
    rfl rfl
  exact ⟨hmain.1, by rw [hmain.2]; rfl⟩

/-! ### C4: merge dedup — `findIndex` filter equals "first occurrence wins" -/

lemma contains_iff_mem {l : List String} {k : String} :
    l.contains k = true ↔ k ∈ l :=
  List.elem_iff

lemma jsFindIndex_of_none_prefix {p : α → Bool} :
    ∀ (pre : List α) (a : α) (l : List α), p a = true →
      (∀ b ∈ pre, p b = false) →
      jsFindIndex p (pre ++ a :: l) = some pre.length := by
  intro pre
  induction pre with
  | nil => intro a l ha _; simp [jsFindIndex, ha]
  | cons b pre' ih =>
    intro a l ha hall
    rw [List.cons_append, jsFindIndex,
      if_neg (by simp [hall b (List.mem_cons_self b pre')]),
      ih a l ha (fun x hx => hall x (List.mem_cons_of_mem b hx))]
    rfl

lemma jsFindIndex_ne_of_mem_prefix {p : α → Bool} :
    ∀ (pre : List α) (l : List α), (∃ b ∈ pre, p b = true) →
      jsFindIndex p (pre ++ l) ≠ some pre.length := by
  intro pre
  induction pre with
  | nil => rintro l ⟨b, hb, -⟩ _; exact absurd hb (List.not_mem_nil b)
  | cons b pre' ih =>
    rintro l ⟨c, hc, hpc⟩ h
    by_cases hb : p b = true
    · rw [List.cons_append, jsFindIndex, if_pos hb] at h
      simp at h
    · rw [List.cons_append, jsFindIndex, if_neg hb] at h
      rcases List.mem_cons.mp hc with rfl | hc'
      · exact hb hpc
      · rcases hrec : jsFindIndex p (pre' ++ l) with _ | i
        · rw [hrec] at h; simp at h
        · rw [hrec] at h
          simp at h
          exact ih l ⟨c, hc', hpc⟩ (by rw [hrec, h])

lemma keepFirstByAux_congr_seen {key : α → String} :
    ∀ (l : List α) (s1 s2 : List String),
      (∀ k, (k ∈ s1) ↔ (k ∈ s2)) →
      keepFirstByAux key s1 l = keepFirstByAux key s2 l := by
  intro l
  induction l with
  | nil => intro _ _ _; rfl
  | cons x xs ih =>
    intro s1 s2 hs
    have hc : s1.contains (key x) = s2.contains (key x) :=
      Bool.eq_iff_iff.mpr (by rw [contains_iff_mem, contains_iff_mem]; exact hs _)
    rw [keepFirstByAux, keepFirstByAux, hc]
    by_cases h2 : s2.contains (key x) = true
    · rw [if_pos h2, if_pos h2]
      exact ih s1 s2 hs
    · rw [if_neg h2, if_neg h2]
      refine congrArg (List.cons x) (ih _ _ fun k => ?_)
      simp only [List.mem_cons]
      exact or_congr Iff.rfl (hs k)

lemma dedupByKeyGo_eq_keepFirstByAux {key : α → String} :
    ∀ (l pre : List α),
      dedupByKeyGo key (pre ++ l) pre.length l =
        keepFirstByAux key (pre.map key) l := by
  intro l
  induction l with
  | nil => intro pre; rfl
  | cons a rest ih =>
    intro pre
    rw [dedupByKeyGo, keepFirstByAux]
    by_cases hseen : (pre.map key).contains (key a) = true
    · have hex : ∃ b ∈ pre, (key b == key a) = true := by
        obtain ⟨b, hb, hkb⟩ := List.mem_map.mp (contains_iff_mem.mp hseen)
        exact ⟨b, hb, by simp [hkb]⟩
      have hne := jsFindIndex_ne_of_mem_prefix pre (a :: rest) hex
      rw [if_pos hseen,
        if_neg (by simpa using beq_eq_false_iff_ne.mpr hne)]
      rw [List.nil_append, List.append_cons,
        show pre.length + 1 = (pre ++ [a]).length by simp]
      rw [ih (pre ++ [a])]
      refine keepFirstByAux_congr_seen rest _ _ fun k => ?_
      simp only [List.map_append, List.map_cons, List.map_nil,
        List.mem_append, List.mem_cons, List.not_mem_nil, or_false,
        List.mem_singleton]
      constructor
      · rintro (hk | rfl)
        · exact hk
        · exact contains_iff_mem.mp hseen
      · exact Or.inl
    · have hall : ∀ b ∈ pre, (key b == key a) = false := by
        intro b hb
        refine beq_eq_false_iff_ne.mpr fun hkb => ?_
        exact hseen (contains_iff_mem.mpr (List.mem_map.mpr ⟨b, hb, hkb⟩))
      have hfi := jsFindIndex_of_none_prefix pre a rest (by simp) hall
      rw [if_neg hseen, if_pos (by simp [hfi])]
      rw [List.cons_append, List.nil_append, List.append_cons,
        show pre.length + 1 = (pre ++ [a]).length by simp]
      rw [ih (pre ++ [a])]
      refine congrArg (List.cons a) (keepFirstByAux_congr_seen rest _ _ fun k => ?_)
      simp only [List.map_append, List.map_cons, List.map_nil,
        List.mem_append, List.mem_cons, List.not_mem_nil, or_false,
        List.mem_singleton]
      exact Or.comm

lemma dedupByKey_eq_keepFirstBy {key : α → String} (l : List α) :
    dedupByKey key l = keepFirstBy key l := by
  have h := @dedupByKeyGo_eq_keepFirstByAux _ key l []
  simpa [dedupByKey, keepFirstBy] using h

lemma mem_of_mem_keepFirstByAux {key : α → String} :
    ∀ (l : List α) (seen : List String) (y : α),
      y ∈ keepFirstByAux key seen l → y ∈ l := by
  intro l
  induction l with
  | nil => intro seen y h; exact absurd h (List.not_mem_nil y)
  | cons x xs ih =>
    intro seen y h
    rw [keepFirstByAux] at h
    by_cases hc : seen.contains (key x) = true
    · rw [if_pos hc] at h
      exact List.mem_cons_of_mem x (ih _ y h)
    · rw [if_neg hc] at h
      rcases List.mem_cons.mp h with rfl | h'
      · exact List.mem_cons_self y xs
      · exact List.mem_cons_of_mem x (ih _ y h')

lemma filter_keepFirstByAux {key : α → String} (k : String) :
    ∀ (l : List α) (seen : List String),
      (keepFirstByAux key seen l).filter (fun y => key y == k) =
        if seen.contains k then [] else (l.filter (fun y => key y == k)).take 1 := by
  intro l
  induction l with
  | nil => intro seen; simp [keepFirstByAux]
  | cons x xs ih =>
    intro seen
    rw [keepFirstByAux]
    by_cases hc : seen.contains (key x) = true
    · rw [if_pos hc, ih]
      by_cases hk : seen.contains k = true
      · rw [if_pos hk, if_pos hk]
      · rw [if_neg hk, if_neg hk, List.filter_cons]
        have hxk : (key x == k) = false := by
          refine beq_eq_false_iff_ne.mpr fun hkk => ?_
          exact hk (hkk ▸ hc)
        rw [hxk]
        simp
    · rw [if_neg hc, List.filter_cons]
      by_cases hxk : (key x == k) = true
      · have hkx : k = key x := by simpa using (beq_iff_eq.mp hxk).symm
        rw [if_pos hxk, ih]
        have hck : ((key x :: seen).contains k) = true := by
          rw [contains_iff_mem, hkx]
          exact List.mem_cons_self _ _
        rw [if_pos hck, if_neg (by rw [hkx]; exact hc)]
        rw [List.filter_cons, hxk]
        simp
      · rw [if_neg hxk, ih]
        have hxk' : (key x == k) = false := by simpa using hxk
        have hck : ((key x :: seen).contains k) = (seen.contains k) := by
          refine Bool.eq_iff_iff.mpr ?_
          rw [contains_iff_mem, contains_iff_mem, List.mem_cons]
          constructor
          · rintro (rfl | hk)
            · simp at hxk'
            · exact hk
          · exact Or.inr
        rw [hck]
        by_cases hk : seen.contains k = true
        · rw [if_pos hk, if_pos hk]
        · rw [if_neg hk, if_neg hk, List.filter_cons, hxk']
          simp

lemma keepFirstByAux_key_nodup {key : α → String} :
    ∀ (l : List α) (seen : List String),
      ((keepFirstByAux key seen l).map key).Nodup ∧
      (∀ y ∈ keepFirstByAux key seen l, seen.contains (key y) = false) := by
  intro l
  induction l with
  | nil => intro seen; simp [keepFirstByAux]
  | cons x xs ih =>
    intro seen
    rw [keepFirstByAux]
    by_cases hc : seen.contains (key x) = true
    · rw [if_pos hc]
      exact ih seen
    · rw [if_neg hc]
      obtain ⟨ihn, ihs⟩ := ih (key x :: seen)
      refine ⟨?_, ?_⟩
      · rw [List.map_cons, List.nodup_cons]
        refine ⟨fun hmem => ?_, ihn⟩
        obtain ⟨y, hy, hky⟩ := List.mem_map.mp hmem
        have := ihs y hy
        rw [hky] at this
        have : (key x ∈ key x :: seen) → False := by
          intro hmm
          rw [← contains_iff_mem] at hmm
          rw [hmm] at this
          exact Bool.true_eq_false.mp this
        exact this (List.mem_cons_self _ _)
      · intro y hy
        rcases List.mem_cons.mp hy with rfl | hy'
        · simpa using hc
        · have h1 := ihs y hy'
          by_contra hne
          have hmem : seen.contains (key y) = true := by
            cases hcc : seen.contains (key y)
            · exact absurd hcc hne
            · rfl
          have h2 : ((key x :: seen).contains (key y)) = true :=
            contains_iff_mem.mpr (List.mem_cons_of_mem _ (contains_iff_mem.mp hmem))
          rw [h1] at h2
          exact Bool.false_ne_true h2

lemma filter_keepFirstBy {key : α → String} (k : String) (l : List α) :
    (keepFirstBy key l).filter (fun y => key y == k) =
      (l.filter (fun y => key y == k)).take 1 := by
  rw [keepFirstBy, filter_keepFirstByAux k l []]
  rfl

/-- C4: the merge deduplicates `flashcards` and `quiz` by exact,
case-sensitive equality of `question`, keeping the first occurrence (the
`findIndex` filter refines "first occurrence wins"); in particular, two
partials each containing a flashcard with the same question but different
answers merge to exactly one flashcard carrying the first partial's
answer. -/
theorem combineMaterials_dedup_spec :
    (∀ rs : List MaterialsResponse,
      (combineMaterials rs).flashcards =
        keepFirstBy (fun c => c.question) (rs.flatMap (fun r => r.flashcards.getD [])) ∧
      (combineMaterials rs).quiz =
        keepFirstBy (fun q => q.question) (rs.flatMap (fun r => r.quiz.getD []))) ∧
    (∀ (p1 p2 : MaterialsResponse) (q a1 a2 : String) (l1 l2 : List Flashcard),
      p1.flashcards = some l1 → p2.flashcards = some l2 →
      l1.filter (fun c => c.question == q) = [⟨q, a1⟩] →
      (⟨q, a2⟩ : Flashcard) ∈ l2 → a1 ≠ a2 →
      (combineMaterials [p1, p2]).flashcards.filter (fun c => c.question == q) =
        [⟨q, a1⟩]) := by
  constructor
  · intro rs
    exact ⟨dedupByKey_eq_keepFirstBy _, dedupByKey_eq_keepFirstBy _⟩
  · intro p1 p2 q a1 a2 l1 l2 h1 h2 hf1 _ _
    have hflat : ([p1, p2].flatMap (fun r => r.flashcards.getD [])) = l1 ++ l2 := by
      simp [h1, h2]
    rw [show (combineMaterials [p1, p2]).flashcards =
        dedupByKey (fun c => c.question) ([p1, p2].flatMap (fun r => r.flashcards.getD []))
        from rfl,
      hflat, dedupByKey_eq_keepFirstBy, filter_keepFirstBy,
      List.filter_append l1 l2, hf1]
    rfl

/-- C4 witness: two one-flashcard partials sharing the question `"Q"` with
different answers merge to the single flashcard with the first partial's
answer. -/
theorem combineMaterials_dedup_spec_witness :
    (combineMaterials [⟨none, some [⟨"Q", "A1"⟩], none⟩,
        ⟨none, some [⟨"Q", "A2"⟩], none⟩]).flashcards.filter
      (fun c => c.question == "Q") = [⟨"Q", "A1"⟩] ∧
    (combineMaterials [⟨none, some [⟨"Q", "A1"⟩], none⟩,
        ⟨none, some [⟨"Q", "A2"⟩], none⟩]).flashcards = [⟨"Q", "A1"⟩] := by
  constructor
  · exact combineMaterials_dedup_spec.2 ⟨none, some [⟨"Q", "A1"⟩], none⟩
      ⟨none, some [⟨"Q", "A2"⟩], none⟩ "Q" "A1" "A2" [⟨"Q", "A1"⟩] [⟨"Q", "A2"⟩]
      rfl rfl (by decide) (by decide) (by decide)
  · rfl

/-! ### C8: hashtag dedup/truncation and summary dedup at merge -/

lemma setDedup_nodup (l : List String) : (setDedup l).Nodup := by
  have h := (@keepFirstByAux_key_nodup _ (fun s => s) l []).1
  rw [setDedup, keepFirstBy]
  exact List.Nodup.of_map _ h

/-- C8 amended: the part_001 merger's hashtags contain no duplicates and at
most 8 entries, but keep their original case (lower-casing happens only at
persistence), and its summary is plain concatenation without dedup; the
route.js merger's summary is deduplicated by exact string equality. -/
theorem combine_hashtags_summary_spec :
    (∀ (first : GeminiResult) (rest : List GeminiResult),
      (combineChunkResults first rest).hashtags.Nodup ∧
      (combineChunkResults first rest).hashtags.length ≤ 8 ∧
      (combineChunkResults first rest).summary =
        (first :: rest).flatMap (fun r => r.summary.getD [])) ∧
    (∀ rs : List MaterialsResponse, (combineMaterials rs).summary.Nodup) := by
  constructor
  · intro first rest
    refine ⟨?_, ?_, rfl⟩
    · exact (setDedup_nodup _).sublist (List.take_sublist 8 _)
    · exact List.length_take_le 8 _
  · intro rs
    exact setDedup_nodup _

/-- C8 counterexample: a partial carrying the hashtag `"Java"` merges to a
document whose hashtag is still `"Java"` (not lower-cased — `storedHashtag`,
the persistence-time lowering, changes it), and two partials sharing a
summary line merge to a summary with a duplicate. -/
theorem combine_hashtags_not_lowercased :
    (combineChunkResults ⟨some ["S"], none, none, some ["Java"], none, none⟩
      [⟨some ["S"], none, none, none, none, none⟩]).hashtags = ["Java"] ∧
    storedHashtag "Java" ≠ "Java" ∧
    (combineChunkResults ⟨some ["S"], none, none, some ["Java"], none, none⟩
      [⟨some ["S"], none, none, none, none, none⟩]).summary = ["S", "S"] ∧
    ¬ (["S", "S"] : List String).Nodup := by
  refine ⟨rfl, by decide, rfl, by decide⟩

/-! ### C10: the OpenRouter combine requires at least one chunk -/

/-- C10: the OpenRouter combine reads `difficulty_level` and
`estimated_study_time` from the first collected response unconditionally;
with zero chunks the `allResponses[0]` read throws (modelled as the
`TypeError`), so the pipeline never returns an empty merged document for
content that yields no chunks. -/
theorem openRouter_requires_first_chunk :
    (∀ (first : ORResponse) (rest : List ORResponse) (c : ORCombined),
      combineOpenRouter (first :: rest) = .ok c →
      c.difficulty_level = first.difficulty_level ∧
      c.estimated_study_time = first.estimated_study_time) ∧
    (∀ (gen : List Char → Except JsError ORResponse) (content : String),
      chunkRegex 5000 content.data = [] →
      openRouterPipeline gen content =
        .error ⟨"Cannot read properties of undefined (reading 'difficulty_level')",
          none⟩) := by
  constructor
  · intro first rest c h
    rw [combineOpenRouter] at h
    obtain rfl : _ = c := Except.ok.inj h
    exact ⟨rfl, rfl⟩
  · intro gen content h
    simp only [openRouterPipeline, h]
    rfl

/-- C10 witness: the empty content chunks to nothing and the pipeline fails
with the property-read error; a singleton response list exposes its own
`difficulty_level`/`estimated_study_time`. -/
theorem openRouter_requires_first_chunk_witness :
    openRouterPipeline (fun _ => .error ⟨"x", none⟩) "" =
      .error ⟨"Cannot read properties of undefined (reading 'difficulty_level')",
        none⟩ ∧
    ((combineOpenRouter [⟨"", [], "beginner", 30⟩]).toOption.getD
        ⟨[], [], "", 0⟩).difficulty_level = "beginner" := by
  constructor
  · exact (openRouter_requires_first_chunk).2 (fun _ => .error ⟨"x", none⟩) "" rfl
  · exact ((openRouter_requires_first_chunk).1 ⟨"", [], "beginner", 30⟩ []
      (⟨[], [], "beginner", 30⟩ : ORCombined) rfl).1
